import Mathlib

/-!
Verification of the riff dependency-resolution and environment-synthesis
engine (src/dev_env.rs, src/telemetry.rs), as a shallow embedding.

Modelling conventions:
* Rust `HashSet<String>` and `HashMap<String, String>` are embedded as lists
  that record the container state; iteration order is the list order.
  Insertion appends new elements, and map insertion on an existing key
  updates the value in place (as a hash table does), so the list order is
  the construction order.  The Rust containers iterate in an unspecified
  hash-dependent order; the embedding fixes one concrete order so that
  order-sensitive behaviour of the renderer is observable.
* Machine integers are `Int`/`Nat`; process exit codes are `Option Int`
  (`none` models termination by signal, where `ExitStatus.code()` is None).
* External fallible operations (UTF-8 decoding of captured bytes, JSON
  parsing by serde) are embedded at their result level: captured streams
  are `Option String` (`none` models invalid UTF-8) and the parser is a
  function `String → Option CargoMetadata` passed explicitly.
-/

/-- Language tag, from `enum DetectedLanguage` in src/dev_env.rs. -/
inductive DetectedLanguage where
  | Rust
  deriving DecidableEq, Repr

/-- Modelled from the spec: the `DependencyConfig` rule type lives in
dependency_registry.rs, which is not under src/.  Section 3 of the spec
defines an OverrideRule as a set of build-input names, a set of
runtime-input names and a map of environment variables. -/
structure OverrideRule where
  build_inputs : List String
  runtime_inputs : List String
  environment_variables : List (String × String)
  deriving DecidableEq, Repr

/-- The accumulator, from `struct DevEnvironment` in src/dev_env.rs.
The `registry` borrow is passed separately to the functions that use it. -/
structure DevEnvironment where
  build_inputs : List String
  environment_variables : List (String × String)
  runtime_inputs : List String
  detected_languages : List DetectedLanguage
  deriving DecidableEq, Repr

/-- `DevEnvironment::new` without the registry borrow. -/
def emptyEnv : DevEnvironment :=
  { build_inputs := [], environment_variables := [], runtime_inputs := [],
    detected_languages := [] }

/-- Hash-set insertion: a new element is appended, an existing one leaves
the container unchanged. -/
def insertElem {α : Type} [DecidableEq α] (l : List α) (x : α) : List α :=
  if x ∈ l then l else l ++ [x]

/-- Union a batch of elements into a hash set, one insertion at a time. -/
def setUnionList (l xs : List String) : List String :=
  xs.foldl insertElem l

/-- Hash-map insertion: overwrite the value in place if the key exists,
append the binding otherwise. -/
def upsertVar : List (String × String) → String → String → List (String × String)
  | [], k, v => [(k, v)]
  | (k', v') :: rest, k, v =>
    if k' = k then (k, v) :: rest else (k', v') :: upsertVar rest k v

/-- Modelled from the spec: the `DevEnvironmentAppliable` impl for the rule
type lives in dependency_registry.rs, which is not under src/.  Section 4.3
defines apply as: union the build-input set, union the runtime-input set,
upsert each environment-variable entry. -/
def applyRule (rule : OverrideRule) (env : DevEnvironment) : DevEnvironment :=
  { env with
    build_inputs := setUnionList env.build_inputs rule.build_inputs,
    runtime_inputs := setUnionList env.runtime_inputs rule.runtime_inputs,
    environment_variables :=
      rule.environment_variables.foldl (fun m p => upsertVar m p.1 p.2)
        env.environment_variables }

/-- Apply a list of rules left to right. -/
def applyRules (rules : List OverrideRule) (env : DevEnvironment) : DevEnvironment :=
  rules.foldl (fun e r => applyRule r e) env

/-- The build-inputs slot of `DevEnvironment::to_flake`:
`self.build_inputs.iter().join(" ")`. -/
def build_inputs_section (env : DevEnvironment) : String :=
  String.intercalate " " env.build_inputs

/-- One environment-variable declaration, from the closure in
`DevEnvironment::to_flake`: `format!("\"{}\" = \"{}\";", name, value)`. -/
def fmtVar (p : String × String) : String :=
  "\"" ++ p.1 ++ "\" = \"" ++ p.2 ++ "\";"

/-- The environment-variables slot of `DevEnvironment::to_flake`:
one declaration per map entry, joined by newlines, in iteration order. -/
def environment_variables_section (env : DevEnvironment) : String :=
  String.intercalate "\n" (env.environment_variables.map fmtVar)

/-- The per-entry path construction of `DevEnvironment::to_flake`:
`format!("${{lib.getLib {v}}}/lib")`. -/
def pathRule (v : String) : String :=
  "$\x7blib.getLib " ++ v ++ "\x7d/lib"

/-- The library-search-path slot of `DevEnvironment::to_flake`: the
declaration when `runtime_inputs` is non-empty, the empty string otherwise. -/
def ld_library_path_section (env : DevEnvironment) : String :=
  if env.runtime_inputs = [] then ""
  else
    "\"LD_LIBRARY_PATH\" = \"" ++
      String.intercalate ":" (env.runtime_inputs.map pathRule) ++ "\";"

/-- Modelled from the spec: the file flake-template.inc read by
`include_str!` is not under src/.  Section 6 describes the render output as
a fixed template with three interpolation slots (build-input listing,
environment-variable declarations, optional library-search-path
declaration); the surrounding boilerplate is out of scope, so a minimal
frame is used. -/
def flakeTemplate (bi ev ld : String) : String :=
  "buildInputs = [ " ++ bi ++ " ];\n" ++ ev ++ "\n" ++ ld ++ "\n"

/-- `DevEnvironment::to_flake` from src/dev_env.rs. -/
def to_flake (env : DevEnvironment) : String :=
  flakeTemplate (build_inputs_section env) (environment_variables_section env)
    (ld_library_path_section env)

/-- Hash-set union iteration, from `self.build_inputs.union(&self.runtime_inputs)`
in `add_deps_from_cargo`: the elements of the first set followed by the
elements of the second set that are not in the first. -/
def hashUnion (a b : List String) : List String :=
  a ++ b.filter (fun x => !a.contains x)

/-- Lexicographic comparison of character lists by scalar value; this is
the order the Rust `Ord` instance for `String` uses (byte-wise comparison
of UTF-8 agrees with scalar-value lexicographic comparison). -/
def charListLe : List Char → List Char → Bool
  | [], _ => true
  | _ :: _, [] => false
  | a :: as, b :: bs =>
    if a.val.toNat < b.val.toNat then true
    else if b.val.toNat < a.val.toNat then false
    else charListLe as bs

/-- String comparison used by `Vec::sort` on strings. -/
def strLe (a b : String) : Bool :=
  charListLe a.data b.data

/-- The sort relation on strings. -/
def strLeRel : String → String → Prop :=
  fun a b => strLe a b = true

instance : DecidableRel strLeRel :=
  fun a b => inferInstanceAs (Decidable (strLe a b = true))

/-- The sort relation on environment-variable entries: order by name. -/
def varLeRel : String × String → String × String → Prop :=
  fun p q => strLe p.1 q.1 = true

instance : DecidableRel varLeRel :=
  fun p q => inferInstanceAs (Decidable (strLe p.1 q.1 = true))

/-- The dependency listing printed to stderr by `add_deps_from_cargo`
(lines 183-189): the union of build and runtime inputs, sorted, joined by
", ".  The terminal colouring applied to each name is not modelled. -/
def reportInputs (env : DevEnvironment) : String :=
  String.intercalate ", "
    (List.insertionSort strLeRel
      (hashUnion env.build_inputs env.runtime_inputs))

/-- Follows the specification text of section 4.4: the build-input listing
is the sorted union of the build-input and runtime-input sets, joined by a
single separator. -/
def specBuildListing (env : DevEnvironment) : String :=
  String.intercalate " "
    (List.insertionSort strLeRel
      (hashUnion env.build_inputs env.runtime_inputs))

/-- Follows the specification text of section 4.4: one declaration per
entry, sorted by variable name. -/
def specEnvListing (env : DevEnvironment) : String :=
  String.intercalate "\n"
    ((List.insertionSort varLeRel env.environment_variables).map fmtVar)

/-- Modelled from the spec: cargo_metadata.rs is not under src/.  Section
4.2 and section 6 describe the fetched document as a package list, each
package carrying a name and an optional self-declared override nested
under a fixed key (`package.metadata.riff`). -/
structure MetadataObject where
  riff : Option OverrideRule
  deriving DecidableEq

/-- Modelled from the spec: a discovered package, a name plus the optional
metadata object that may carry the inline override. -/
structure Package where
  name : String
  metadata : Option MetadataObject
  deriving DecidableEq

/-- Modelled from the spec: the decoded output of `cargo metadata`. -/
structure CargoMetadata where
  packages : List Package
  deriving DecidableEq

/-- Modelled from the spec: dependency_registry.rs is not under src/.
Section 2 and section 4.3 describe the registry as ecosystem defaults plus
a lookup from package name to override rule. -/
structure RustRegistry where
  default : OverrideRule
  dependencies : String → Option OverrideRule

/-- The per-package loop of `add_deps_from_cargo` (src/dev_env.rs lines
145-177): for each package, apply the registry rule for its name if
present, then apply the inline `package.metadata.riff` override if
present. -/
def processPackages (reg : RustRegistry) : List Package → DevEnvironment → DevEnvironment
  | [], env => env
  | p :: rest, env =>
    let env1 := match reg.dependencies p.name with
      | some cfg => applyRule cfg env
      | none => env
    match p.metadata with
    | none => processPackages reg rest env1
    | some mo =>
      match mo.riff with
      | none => processPackages reg rest env1
      | some cfg => processPackages reg rest (applyRule cfg env1)

/-- Error values produced by `DevEnvironment::detect` and
`add_deps_from_cargo`.  In the source these are `eyre` reports
distinguished by their message text; the constructors record the
distinguishing data. -/
inductive RiffError where
  | unsupportedProject (path : String)
  | toolFailed (code : Option Int) (stderr : String)
  | stderrNotUtf8
  | stdoutNotUtf8
  | malformedOutput
  deriving DecidableEq, Repr

/-- Whether an error is the tool-ran-and-failed class. -/
def RiffError.isToolFailed : RiffError → Bool
  | .toolFailed _ _ => true
  | _ => false

/-- The message text built by the source for each error.  The text of the
two wrapped external errors (UTF-8 decoding of stderr, serde parsing) is
produced by external libraries and is represented by the context line the
source attaches (or a placeholder where none is attached). -/
def RiffError.message : RiffError → String
  | .unsupportedProject path =>
    "\x27" ++ path ++ "\x27 does not contain a project recognized by Riff."
  | .toolFailed code stderr =>
    "`cargo metadata` exited with code " ++
      (match code with
       | some c => toString c
       | none => "unknown") ++ ":\n" ++ stderr
  | .stderrNotUtf8 => "invalid utf-8 sequence"
  | .stdoutNotUtf8 => "Output produced by `cargo metadata` was not valid UTF8"
  | .malformedOutput =>
    "Unable to parse output produced by `cargo metadata` into our desired structure"

/-- The observable result of a call: the process terminated itself with an
exit code, or the call returned an error, or it returned successfully.
`exit` models `std::process::exit`, which never returns to the caller. -/
inductive FetchResult where
  | exit (code : Nat)
  | err (e : RiffError)
  | ok
  deriving DecidableEq, Repr

/-- The outcome of running `cargo metadata`, at the level the error
handling in `add_deps_from_cargo` inspects it: the spawn itself failed
(`Command::output` returned Err), or the process ran and produced an exit
status (`none` = killed by a signal, so `ExitStatus::code()` is None and
`success()` is false) together with captured streams.  The streams are
byte buffers in the source; they are embedded as the result of UTF-8
decoding, `none` meaning the bytes were not valid UTF-8. -/
inductive CmdResult where
  | spawnErr
  | output (code : Option Int) (stdout stderr : Option String)

/-- `DevEnvironment::add_deps_from_cargo` (src/dev_env.rs lines 78-213),
as a function of the command outcome and a serde parser.  Mutation of
`&mut self` is state passing: the returned environment is the final state.
On spawn failure the source prints install guidance and calls
`std::process::exit(1)`.  On a non-zero exit status it returns the
tool-failed error carrying the exit code and the decoded stderr (the
UTF-8 decode error is propagated instead if stderr does not decode).  On
a zero exit status it decodes stdout, parses it, applies the registry
default rule and then processes every package. -/
def add_deps_from_cargo (parse : String → Option CargoMetadata)
    (reg : RustRegistry) (cmd : CmdResult) (env : DevEnvironment) :
    DevEnvironment × FetchResult :=
  match cmd with
  | .spawnErr => (env, .exit 1)
  | .output code stdout stderr =>
    if code = some 0 then
      match stdout with
      | none => (env, .err .stdoutNotUtf8)
      | some out =>
        match parse out with
        | none => (env, .err .malformedOutput)
        | some metadata =>
          (processPackages reg metadata.packages (applyRule reg.default env), .ok)
    else
      match stderr with
      | none => (env, .err .stderrNotUtf8)
      | some s => (env, .err (.toolFailed code s))

/-- `DevEnvironment::detect` (src/dev_env.rs lines 64-75): if the project
root contains Cargo.toml, record Rust in the detected-languages set and
run the cargo pipeline; otherwise fail with the unsupported-project error
naming the path. -/
def detect (parse : String → Option CargoMetadata) (reg : RustRegistry)
    (hasCargoToml : Bool) (projectDir : String) (cmd : CmdResult)
    (env : DevEnvironment) : DevEnvironment × FetchResult :=
  if hasCargoToml then
    add_deps_from_cargo parse reg cmd
      { env with
        detected_languages := insertElem env.detected_languages DetectedLanguage.Rust }
  else (env, .err (.unsupportedProject projectDir))

/-- Follows the specification text of section 4.3: a PackageRecord is a
name plus an optional inline override. -/
structure PackageRecord where
  name : String
  inline_override : Option OverrideRule
  deriving DecidableEq

/-- The record view of a fetched package: the inline override is the riff
object nested in the optional metadata object. -/
def toRecord (p : Package) : PackageRecord :=
  { name := p.name, inline_override := Option.bind p.metadata (fun mo => mo.riff) }

/-- Follows the specification text of section 4.3 step 5: registry rule
first if present, inline override second if present. -/
def applyRecord (reg : RustRegistry) (env : DevEnvironment) (r : PackageRecord) :
    DevEnvironment :=
  let env1 := match reg.dependencies r.name with
    | some rule => applyRule rule env
    | none => env
  match r.inline_override with
  | some rule => applyRule rule env1
  | none => env1

/-- Follows the specification text of section 4.3 steps 3 and 5: apply the
ecosystem defaults unconditionally, then fold every record. -/
def resolveSpecApply (reg : RustRegistry) (records : List PackageRecord)
    (env : DevEnvironment) : DevEnvironment :=
  records.foldl (applyRecord reg) (applyRule reg.default env)

/-- The telemetry payload, from `struct Telemetry` in src/telemetry.rs.
The distinct id is a version 4 UUID; its 128-bit value is embedded as a
natural number. -/
structure Telemetry where
  distinct_id : Option Nat
  system_os : String
  system_arch : String
  os_release_name : Option String
  os_release_version_id : Option String
  riff_version : String
  nix_version : Option String
  is_tty : Bool
  subcommand : Option String
  detected_languages : List DetectedLanguage
  in_ci : Bool

/-- `Telemetry::with_detected_languages` (src/telemetry.rs lines 105-108):
replace the detected-languages set with a copy of the given one. -/
def Telemetry.with_detected_languages (t : Telemetry)
    (languages : List DetectedLanguage) : Telemetry :=
  { t with detected_languages := languages }

/-- Modelled from the spec: the call site handing the accumulator to the
telemetry collaborator is in the excluded CLI layer, not under src/.
Section 6 states the collaborator receives only the detected-ecosystems
set, not the full accumulator. -/
def telemetryOf (t : Telemetry) (env : DevEnvironment) : Telemetry :=
  t.with_detected_languages env.detected_languages

/-- Hexadecimal digit characters, lowercase, as produced by the canonical
UUID rendering. -/
def hexChar : Nat → Char
  | 0 => '0'
  | 1 => '1'
  | 2 => '2'
  | 3 => '3'
  | 4 => '4'
  | 5 => '5'
  | 6 => '6'
  | 7 => '7'
  | 8 => '8'
  | 9 => '9'
  | 10 => 'a'
  | 11 => 'b'
  | 12 => 'c'
  | 13 => 'd'
  | 14 => 'e'
  | 15 => 'f'
  | _ => '0'

/-- Fixed-width big-endian hexadecimal rendering of a natural number. -/
def toHexDigits (n w : Nat) : List Char :=
  (List.range w).map (fun i => hexChar (n / 16 ^ (w - 1 - i) % 16))

/-- The canonical hyphenated string form of a 128-bit UUID value, as
produced by `Uuid::to_string`: five lowercase hexadecimal groups of 8, 4,
4, 4 and 12 digits. -/
def uuidToString (n : Nat) : List Char :=
  toHexDigits (n / 2 ^ 96 % 2 ^ 32) 8 ++
    '-' :: toHexDigits (n / 2 ^ 80 % 2 ^ 16) 4 ++
    '-' :: toHexDigits (n / 2 ^ 64 % 2 ^ 16) 4 ++
    '-' :: toHexDigits (n / 2 ^ 48 % 2 ^ 16) 4 ++
    '-' :: toHexDigits (n % 2 ^ 48) 12

/-- One pass of `str::replace`: scan left to right; at each position, if
the pattern `a :: s0` is a prefix, emit the replacement and continue after
the match; otherwise keep the character.  This is the leftmost
non-overlapping match semantics of the Rust standard library. -/
def replaceFrom (a : Char) (s0 r : List Char) : List Char → List Char
  | [] => []
  | c :: t =>
    if (a :: s0) <+: (c :: t) then r ++ replaceFrom a s0 r (t.drop s0.length)
    else c :: replaceFrom a s0 r t
termination_by t => t.length
decreasing_by
  · simp only [List.length_drop, List.length_cons]
    omega
  · simp only [List.length_cons]
    omega

/-- `str::replace` for a non-empty pattern (the UUID pattern used by the
source is never empty). -/
def listReplace (pat r t : List Char) : List Char :=
  match pat with
  | [] => t
  | a :: s0 => replaceFrom a s0 r t

/-- The replacement text used by `Telemetry::redact_header_data`. -/
def redactReplacement : List Char :=
  "<redacted>".toList

/-- `Telemetry::redact_header_data` (src/telemetry.rs lines 128-134):
when a distinct id is present, replace every occurrence of its canonical
string form with the redaction marker.  Strings are embedded as character
lists. -/
def Telemetry.redact_header_data (t : Telemetry) (val : List Char) : List Char :=
  match t.distinct_id with
  | some u => listReplace (uuidToString u) redactReplacement val
  | none => val

/-- The empty override rule. -/
def emptyRule : OverrideRule :=
  { build_inputs := [], runtime_inputs := [], environment_variables := [] }

/-- A registry with empty defaults and no known packages. -/
def reg0 : RustRegistry :=
  { default := emptyRule, dependencies := fun _ => none }

/-- A parser that accepts nothing. -/
def parse0 : String → Option CargoMetadata :=
  fun _ => none

/-- A metadata document with no packages. -/
def metaEmpty : CargoMetadata :=
  { packages := [] }

/-- A parser that accepts everything as the empty package list. -/
def parseEmpty : String → Option CargoMetadata :=
  fun _ => some metaEmpty

/-- An accumulator state with no build inputs and one runtime input. -/
def envC1 : DevEnvironment :=
  { emptyEnv with runtime_inputs := ["libGL"] }

/-- A rule contributing only the build input "a". -/
def ruleA : OverrideRule :=
  { emptyRule with build_inputs := ["a"] }

/-- A rule contributing only the build input "b". -/
def ruleB : OverrideRule :=
  { emptyRule with build_inputs := ["b"] }

/-- An accumulator state whose variable map was filled in the order B, A. -/
def envC3 : DevEnvironment :=
  { emptyEnv with environment_variables := [("B", "1"), ("A", "2")] }

/-- An accumulator state with two runtime inputs. -/
def envC8 : DevEnvironment :=
  { emptyEnv with runtime_inputs := ["nix", "libGL"] }

/-- A telemetry value with a concrete distinct id. -/
def tel0 : Telemetry :=
  { distinct_id := some 0, system_os := "linux", system_arch := "x86_64",
    os_release_name := none, os_release_version_id := none,
    riff_version := "1.0.2", nix_version := none, is_tty := false,
    subcommand := none, detected_languages := [], in_ci := false }

/-- Two accumulators with the same detected languages and different
inputs and variables. -/
def envT1 : DevEnvironment :=
  { build_inputs := ["cargo"], environment_variables := [("HELLO", "WORLD")],
    runtime_inputs := ["nix"], detected_languages := [DetectedLanguage.Rust] }

/-- See envT1. -/
def envT2 : DevEnvironment :=
  { build_inputs := ["hello"], environment_variables := [("GOODBYE", "WORLD")],
    runtime_inputs := ["libGL"], detected_languages := [DetectedLanguage.Rust] }

instance : IsTotal String strLeRel := by
  constructor
  intro a b
  show strLe a b = true ∨ strLe b a = true
  unfold strLe
  generalize a.data = l1
  generalize b.data = l2
  induction l1 generalizing l2 with
  | nil => exact Or.inl rfl
  | cons x xs ih =>
    cases l2 with
    | nil => exact Or.inr rfl
    | cons y ys =>
      simp only [charListLe]
      rcases Nat.lt_trichotomy x.val.toNat y.val.toNat with h | h | h
      · left
        rw [if_pos h]
      · have h2 : ¬ x.val.toNat < y.val.toNat := by omega
        have h3 : ¬ y.val.toNat < x.val.toNat := by omega
        rw [if_neg h2, if_neg h3, if_neg h3, if_neg h2]
        exact ih ys
      · right
        rw [if_pos h]

instance : IsTrans String strLeRel := by
  constructor
  intro a b c
  show strLe a b = true → strLe b c = true → strLe a c = true
  unfold strLe
  generalize a.data = l1
  generalize b.data = l2
  generalize c.data = l3
  induction l1 generalizing l2 l3 with
  | nil => intro _ _; rfl
  | cons x xs ih =>
    cases l2 with
    | nil => intro h _; simp [charListLe] at h
    | cons y ys =>
      cases l3 with
      | nil => intro _ h; simp [charListLe] at h
      | cons z zs =>
        simp only [charListLe]
        intro hab hbc
        rcases Nat.lt_trichotomy x.val.toNat z.val.toNat with h | h | h
        · rw [if_pos h]
        · have h2 : ¬ x.val.toNat < z.val.toNat := by omega
          have h3 : ¬ z.val.toNat < x.val.toNat := by omega
          rw [if_neg h2, if_neg h3]
          by_cases hxy : x.val.toNat < y.val.toNat
          · by_cases hyz : y.val.toNat < z.val.toNat
            · omega
            · rw [if_neg hyz] at hbc
              by_cases hzy : z.val.toNat < y.val.toNat
              · rw [if_pos hzy] at hbc
                exact absurd hbc (by decide)
              · omega
          · rw [if_neg hxy] at hab
            by_cases hyx : y.val.toNat < x.val.toNat
            · rw [if_pos hyx] at hab
              exact absurd hab (by decide)
            · rw [if_neg hyx] at hab
              by_cases hyz : y.val.toNat < z.val.toNat
              · omega
              · rw [if_neg hyz] at hbc
                by_cases hzy : z.val.toNat < y.val.toNat
                · rw [if_pos hzy] at hbc
                  exact absurd hbc (by decide)
                · rw [if_neg hzy] at hbc
                  exact ih ys zs hab hbc
        · exfalso
          by_cases hxy : x.val.toNat < y.val.toNat
          · by_cases hyz : y.val.toNat < z.val.toNat
            · omega
            · rw [if_neg hyz] at hbc
              by_cases hzy : z.val.toNat < y.val.toNat
              · rw [if_pos hzy] at hbc
                exact absurd hbc (by decide)
              · omega
          · rw [if_neg hxy] at hab
            by_cases hyx : y.val.toNat < x.val.toNat
            · rw [if_pos hyx] at hab
              exact absurd hab (by decide)
            · by_cases hyz : y.val.toNat < z.val.toNat
              · omega
              · rw [if_neg hyz] at hbc
                by_cases hzy : z.val.toNat < y.val.toNat
                · rw [if_pos hzy] at hbc
                  exact absurd hbc (by decide)
                · omega

instance : IsTotal (String × String) varLeRel :=
  ⟨fun p q => total_of strLeRel p.1 q.1⟩

instance : IsTrans (String × String) varLeRel :=
  ⟨fun _ _ _ hab hbc => Trans.trans (r := strLeRel) (s := strLeRel) hab hbc⟩

theorem mem_insertElem {α : Type} [DecidableEq α] (l : List α) (x y : α) :
    y ∈ insertElem l x ↔ y ∈ l ∨ y = x := by
  unfold insertElem
  split
  · constructor
    · exact Or.inl
    · rintro (h | rfl)
      · exact h
      · assumption
  · simp [List.mem_append]

theorem mem_setUnionList (l xs : List String) (y : String) :
    y ∈ setUnionList l xs ↔ y ∈ l ∨ y ∈ xs := by
  induction xs generalizing l with
  | nil => simp [setUnionList]
  | cons x rest ih =>
    show y ∈ setUnionList (insertElem l x) rest ↔ _
    rw [ih, mem_insertElem]
    simp only [List.mem_cons]
    tauto

theorem applyRule_build_inputs (r : OverrideRule) (env : DevEnvironment) (y : String) :
    y ∈ (applyRule r env).build_inputs ↔ y ∈ env.build_inputs ∨ y ∈ r.build_inputs :=
  mem_setUnionList env.build_inputs r.build_inputs y

theorem applyRule_runtime_inputs (r : OverrideRule) (env : DevEnvironment) (y : String) :
    y ∈ (applyRule r env).runtime_inputs ↔ y ∈ env.runtime_inputs ∨ y ∈ r.runtime_inputs :=
  mem_setUnionList env.runtime_inputs r.runtime_inputs y

theorem applyRule_detected_languages (r : OverrideRule) (env : DevEnvironment) :
    (applyRule r env).detected_languages = env.detected_languages :=
  rfl

theorem mem_applyRules_build (rules : List OverrideRule) (env : DevEnvironment) (y : String) :
    y ∈ (applyRules rules env).build_inputs ↔
      y ∈ env.build_inputs ∨ ∃ r, r ∈ rules ∧ y ∈ r.build_inputs := by
  induction rules generalizing env with
  | nil => simp [applyRules]
  | cons r rest ih =>
    show y ∈ (applyRules rest (applyRule r env)).build_inputs ↔ _
    rw [ih, applyRule_build_inputs]
    simp only [List.mem_cons]
    constructor
    · rintro ((h | h) | ⟨r', hr', hy⟩)
      · exact Or.inl h
      · exact Or.inr ⟨r, Or.inl rfl, h⟩
      · exact Or.inr ⟨r', Or.inr hr', hy⟩
    · rintro (h | ⟨r', (rfl | hr'), hy⟩)
      · exact Or.inl (Or.inl h)
      · exact Or.inl (Or.inr hy)
      · exact Or.inr ⟨r', hr', hy⟩

theorem mem_applyRules_runtime (rules : List OverrideRule) (env : DevEnvironment) (y : String) :
    y ∈ (applyRules rules env).runtime_inputs ↔
      y ∈ env.runtime_inputs ∨ ∃ r, r ∈ rules ∧ y ∈ r.runtime_inputs := by
  induction rules generalizing env with
  | nil => simp [applyRules]
  | cons r rest ih =>
    show y ∈ (applyRules rest (applyRule r env)).runtime_inputs ↔ _
    rw [ih, applyRule_runtime_inputs]
    simp only [List.mem_cons]
    constructor
    · rintro ((h | h) | ⟨r', hr', hy⟩)
      · exact Or.inl h
      · exact Or.inr ⟨r, Or.inl rfl, h⟩
      · exact Or.inr ⟨r', Or.inr hr', hy⟩
    · rintro (h | ⟨r', (rfl | hr'), hy⟩)
      · exact Or.inl (Or.inl h)
      · exact Or.inl (Or.inr hy)
      · exact Or.inr ⟨r', hr', hy⟩

theorem lookup_upsertVar (m : List (String × String)) (k v : String) :
    List.lookup k (upsertVar m k v) = some v := by
  induction m with
  | nil => simp [upsertVar, List.lookup]
  | cons p rest ih =>
    obtain ⟨k', v'⟩ := p
    by_cases h : k' = k
    · simp [upsertVar, h, List.lookup]
    · simp only [upsertVar, if_neg h]
      have hbeq : (k == k') = false := by
        simp [beq_iff_eq]
        intro hkk
        exact h hkk.symm
      simp [List.lookup, hbeq, ih]

theorem mem_keys_upsertVar (m : List (String × String)) (k v a : String) :
    a ∈ (upsertVar m k v).map Prod.fst ↔ a ∈ m.map Prod.fst ∨ a = k := by
  induction m with
  | nil => simp [upsertVar]
  | cons p rest ih =>
    obtain ⟨k', v'⟩ := p
    by_cases h : k' = k
    · subst h
      simp [upsertVar]
      tauto
    · simp only [upsertVar, if_neg h, List.map_cons, List.mem_cons, ih]
      tauto

theorem nodup_keys_upsertVar (m : List (String × String)) (k v : String)
    (h : (m.map Prod.fst).Nodup) : ((upsertVar m k v).map Prod.fst).Nodup := by
  induction m with
  | nil => simp [upsertVar]
  | cons p rest ih =>
    obtain ⟨k', v'⟩ := p
    simp only [List.map_cons, List.nodup_cons] at h
    by_cases hk : k' = k
    · subst hk
      simpa [upsertVar] using h
    · simp only [upsertVar, if_neg hk, List.map_cons, List.nodup_cons]
      refine ⟨?_, ih h.2⟩
      rw [mem_keys_upsertVar]
      rintro (hc | rfl)
      · exact h.1 hc
      · exact hk rfl

theorem mem_hashUnion (a b : List String) (y : String) :
    y ∈ hashUnion a b ↔ y ∈ a ∨ y ∈ b := by
  unfold hashUnion
  simp only [List.mem_append, List.mem_filter, Bool.not_eq_true']
  constructor
  · rintro (h | ⟨h, _⟩)
    · exact Or.inl h
    · exact Or.inr h
  · rintro (h | h)
    · exact Or.inl h
    · by_cases ha : y ∈ a
      · exact Or.inl ha
      · refine Or.inr ⟨h, ?_⟩
        rw [← Bool.not_eq_true, List.elem_iff]
        exact ha

theorem processPackages_detected_languages (reg : RustRegistry) (ps : List Package)
    (env : DevEnvironment) :
    (processPackages reg ps env).detected_languages = env.detected_languages := by
  induction ps generalizing env with
  | nil => rfl
  | cons p rest ih =>
    rcases hm : p.metadata with _ | mo
    · rcases hd : reg.dependencies p.name with _ | cfg <;>
        simp [processPackages, hm, hd, ih, applyRule_detected_languages]
    · rcases hr : mo.riff with _ | cfg <;>
        rcases hd : reg.dependencies p.name with _ | cfg2 <;>
        simp [processPackages, hm, hr, hd, ih, applyRule_detected_languages]

theorem add_deps_detected_languages (parse : String → Option CargoMetadata)
    (reg : RustRegistry) (cmd : CmdResult) (env : DevEnvironment) :
    (add_deps_from_cargo parse reg cmd env).1.detected_languages = env.detected_languages := by
  cases cmd with
  | spawnErr => rfl
  | output code stdout stderr =>
    simp only [add_deps_from_cargo]
    by_cases hc : code = some 0
    · rw [if_pos hc]
      rcases stdout with _ | out
      · rfl
      · rcases hp : parse out with _ | metadata <;>
          simp [hp, processPackages_detected_languages, applyRule_detected_languages]
    · rw [if_neg hc]
      cases stderr <;> rfl

theorem replaceFrom_nil (a : Char) (s0 r : List Char) :
    replaceFrom a s0 r [] = [] := by
  rw [replaceFrom]

theorem replaceFrom_cons (a : Char) (s0 r : List Char) (c : Char) (t : List Char) :
    replaceFrom a s0 r (c :: t) =
      if (a :: s0) <+: (c :: t) then r ++ replaceFrom a s0 r (t.drop s0.length)
      else c :: replaceFrom a s0 r t := by
  rw [replaceFrom]

theorem infix_iff_exists_drop {α : Type} (s z : List α) :
    s <:+: z ↔ ∃ n, s <+: z.drop n := by
  constructor
  · rintro ⟨u, v, h⟩
    refine ⟨u.length, v, ?_⟩
    rw [← h, List.append_assoc, List.drop_left]
  · rintro ⟨n, v, hv⟩
    refine ⟨z.take n, v, ?_⟩
    rw [List.append_assoc, hv, List.take_append_drop]

theorem redactReplacement_shape :
    redactReplacement = '<' :: "redacted>".toList := by
  decide

theorem redactReplacement_length : redactReplacement.length = 10 := by
  decide

theorem gt_mem_redactReplacement_drop :
    ∀ n, n < 10 → '>' ∈ redactReplacement.drop n := by
  decide

theorem prefix_replaceFrom_preserved (a : Char) (s0 rt : List Char) :
    ∀ (n : Nat) (t p : List Char), t.length ≤ n →
      p <+: replaceFrom a s0 ('<' :: rt) t → '<' ∉ p → p <+: t := by
  intro n
  induction n with
  | zero =>
    intro t p hlen hp _
    have ht : t = [] := by
      cases t with
      | nil => rfl
      | cons c t' => simp at hlen
    subst ht
    rw [replaceFrom_nil] at hp
    obtain ⟨v, hv⟩ := hp
    obtain ⟨hp0, _⟩ := List.append_eq_nil.mp hv
    subst hp0
    exact ⟨[], rfl⟩
  | succ n ih =>
    intro t p hlen hp hlt
    cases t with
    | nil =>
      rw [replaceFrom_nil] at hp
      obtain ⟨v, hv⟩ := hp
      obtain ⟨hp0, _⟩ := List.append_eq_nil.mp hv
      subst hp0
      exact ⟨[], rfl⟩
    | cons c t' =>
      rw [replaceFrom_cons] at hp
      by_cases hpre : (a :: s0) <+: (c :: t')
      · rw [if_pos hpre] at hp
        cases p with
        | nil => exact ⟨c :: t', rfl⟩
        | cons d p' =>
          rw [show ('<' :: rt) ++ replaceFrom a s0 ('<' :: rt) (t'.drop s0.length) =
              '<' :: (rt ++ replaceFrom a s0 ('<' :: rt) (t'.drop s0.length)) from rfl,
            List.cons_prefix_cons] at hp
          exact absurd (hp.1 ▸ List.mem_cons_self d p') hlt
      · rw [if_neg hpre] at hp
        cases p with
        | nil => exact ⟨c :: t', rfl⟩
        | cons d p' =>
          rw [List.cons_prefix_cons] at hp
          have hp' : p' <+: t' := by
            apply ih t' p' (by simpa using hlen) hp.2
            intro hcmem
            exact hlt (List.mem_cons_of_mem d hcmem)
          rw [List.cons_prefix_cons]
          exact ⟨hp.1, hp'⟩

theorem pattern_not_in_replaceFrom (a : Char) (s0 : List Char)
    (hlen : 10 < s0.length + 1) (hlt : '<' ∉ a :: s0) (hgt : '>' ∉ a :: s0) :
    ∀ (n : Nat) (t : List Char), t.length ≤ n →
      ¬ (a :: s0) <:+: replaceFrom a s0 redactReplacement t := by
  intro n
  induction n with
  | zero =>
    intro t hl hinf
    have ht : t = [] := by
      cases t with
      | nil => rfl
      | cons c t' => simp at hl
    subst ht
    rw [replaceFrom_nil] at hinf
    obtain ⟨u, v, huv⟩ := hinf
    have := List.append_eq_nil.mp huv
    have := List.append_eq_nil.mp this.1
    simp at this
  | succ n ih =>
    intro t hl hinf
    cases t with
    | nil =>
      rw [replaceFrom_nil] at hinf
      obtain ⟨u, v, huv⟩ := hinf
      have := List.append_eq_nil.mp huv
      have := List.append_eq_nil.mp this.1
      simp at this
    | cons c t' =>
      have hlt' : t'.length ≤ n := by simpa using hl
      rw [replaceFrom_cons] at hinf
      by_cases hpre : (a :: s0) <+: (c :: t')
      · rw [if_pos hpre] at hinf
        rw [infix_iff_exists_drop] at hinf
        obtain ⟨m, hm⟩ := hinf
        rw [List.drop_append_eq_append_drop] at hm
        by_cases hm10 : m < 10
        · have hz : m - redactReplacement.length = 0 := by
            rw [redactReplacement_length]
            omega
          rw [hz, List.drop_zero] at hm
          have h1 : redactReplacement.drop m <+:
              redactReplacement.drop m ++
                replaceFrom a s0 redactReplacement (t'.drop s0.length) :=
            List.prefix_append _ _
          have hcomp := List.prefix_or_prefix_of_prefix hm h1
          rcases hcomp with hcase | hcase
          · have hle := hcase.length_le
            rw [List.length_drop, redactReplacement_length, List.length_cons] at hle
            omega
          · have hmem := hcase.sublist.subset (gt_mem_redactReplacement_drop m hm10)
            exact hgt hmem
        · have h0 : redactReplacement.drop m = [] :=
            List.drop_eq_nil_of_le (by rw [redactReplacement_length]; omega)
          rw [h0, List.nil_append] at hm
          have hinf' : (a :: s0) <:+:
              replaceFrom a s0 redactReplacement (t'.drop s0.length) :=
            (infix_iff_exists_drop _ _).mpr ⟨_, hm⟩
          apply ih (t'.drop s0.length) ?_ hinf'
          rw [List.length_drop]
          omega
      · rw [if_neg hpre] at hinf
        rw [infix_iff_exists_drop] at hinf
        obtain ⟨m, hm⟩ := hinf
        cases m with
        | zero =>
          rw [List.drop_zero, List.cons_prefix_cons] at hm
          have hs0 : s0 <+: t' := by
            apply prefix_replaceFrom_preserved a s0 "redacted>".toList n t' s0 hlt' ?_ ?_
            · rw [← redactReplacement_shape]
              exact hm.2
            · intro hmem
              exact hlt (List.mem_cons_of_mem a hmem)
          apply hpre
          rw [List.cons_prefix_cons]
          exact ⟨hm.1, hs0⟩
        | succ m' =>
          rw [List.drop_succ_cons] at hm
          exact ih t' hlt' ((infix_iff_exists_drop _ _).mpr ⟨m', hm⟩)

theorem hexChar_cases : ∀ k, k < 16 → hexChar k ≠ '<' ∧ hexChar k ≠ '>' ∧ hexChar k ≠ '-' := by
  decide

theorem mem_toHexDigits (c : Char) (m w : Nat) (h : c ∈ toHexDigits m w) :
    ∃ k, k < 16 ∧ c = hexChar k := by
  unfold toHexDigits at h
  rw [List.mem_map] at h
  obtain ⟨i, _, hi⟩ := h
  exact ⟨m / 16 ^ (w - 1 - i) % 16, Nat.mod_lt _ (by omega), hi.symm⟩

theorem not_mem_uuidToString (c : Char) (hdash : c ≠ '-')
    (hhex : ∀ k, k < 16 → hexChar k ≠ c) (u : Nat) : c ∉ uuidToString u := by
  intro hmem
  unfold uuidToString at hmem
  simp only [List.mem_append, List.mem_cons] at hmem
  rcases hmem with (((h | h | h) | h | h) | h | h) | h | h
  all_goals first
    | exact hdash h
    | (obtain ⟨k, hk, hc⟩ := mem_toHexDigits c _ _ h
       exact hhex k hk hc.symm)

theorem uuidToString_length (u : Nat) : (uuidToString u).length = 36 := by
  simp [uuidToString, toHexDigits]

/-- Counterexample for claim C1: at an accumulator with no build inputs
and one runtime input, the descriptor slot is empty while the sorted
union demanded by the claim is "libGL", so the rendered build-input
listing does not equal the sorted union of the two sets. -/
theorem c1_counterexample :
    build_inputs_section envC1 = "" ∧ specBuildListing envC1 = "libGL" ∧
      build_inputs_section envC1 ≠ specBuildListing envC1 := by
  refine ⟨by decide, by decide, by decide⟩

/-- Claim C1 (amended): the descriptor build-input listing is the
build-input set alone, in iteration order, joined by single spaces;
the sorted lexicographic union of the build-input and runtime-input sets
is emitted in the progress report printed to stderr, whose listing is
sorted and contains exactly the members of the union. -/
theorem c1_build_listing (env : DevEnvironment) :
    build_inputs_section env = String.intercalate " " env.build_inputs ∧
    reportInputs env =
      String.intercalate ", "
        (List.insertionSort strLeRel (hashUnion env.build_inputs env.runtime_inputs)) ∧
    List.Sorted strLeRel
      (List.insertionSort strLeRel (hashUnion env.build_inputs env.runtime_inputs)) ∧
    ∀ x, x ∈ List.insertionSort strLeRel (hashUnion env.build_inputs env.runtime_inputs) ↔
      x ∈ env.build_inputs ∨ x ∈ env.runtime_inputs := by
  refine ⟨rfl, rfl, List.sorted_insertionSort strLeRel _, fun x => ?_⟩
  rw [List.mem_insertionSort, mem_hashUnion]

/-- Counterexample for claim C2: the same two rules applied in the two
possible orders (no environment variables, so collisions are held
constant) render to different descriptors, because the renderer emits
the build-input set in iteration order without sorting. -/
theorem c2_counterexample :
    List.Perm [ruleA, ruleB] [ruleB, ruleA] ∧
      to_flake (applyRules [ruleA, ruleB] emptyEnv) ≠
        to_flake (applyRules [ruleB, ruleA] emptyEnv) := by
  exact ⟨List.Perm.swap ruleB ruleA [], by decide⟩

/-- Claim C2 (amended): rendering the same final accumulator state twice
gives byte-identical output (rendering is a pure function of the state),
and accumulators built by applying the same rule set in different orders
agree on the membership of the build-input and runtime-input sets; but
the renderer does not sort, so the rendered bytes can differ between the
two orders (see the counterexample). -/
theorem c2_render_determinism (l1 l2 : List OverrideRule) (env : DevEnvironment)
    (h : List.Perm l1 l2) :
    (∀ x, x ∈ (applyRules l1 env).build_inputs ↔ x ∈ (applyRules l2 env).build_inputs) ∧
    (∀ x, x ∈ (applyRules l1 env).runtime_inputs ↔ x ∈ (applyRules l2 env).runtime_inputs) ∧
    (∀ e1 e2 : DevEnvironment, e1 = e2 → to_flake e1 = to_flake e2) := by
  refine ⟨fun x => ?_, fun x => ?_, fun e1 e2 he => he ▸ rfl⟩
  · rw [mem_applyRules_build, mem_applyRules_build]
    constructor
    · rintro (hx | ⟨r, hr, hxr⟩)
      · exact Or.inl hx
      · exact Or.inr ⟨r, h.mem_iff.mp hr, hxr⟩
    · rintro (hx | ⟨r, hr, hxr⟩)
      · exact Or.inl hx
      · exact Or.inr ⟨r, h.mem_iff.mpr hr, hxr⟩
  · rw [mem_applyRules_runtime, mem_applyRules_runtime]
    constructor
    · rintro (hx | ⟨r, hr, hxr⟩)
      · exact Or.inl hx
      · exact Or.inr ⟨r, h.mem_iff.mp hr, hxr⟩
    · rintro (hx | ⟨r, hr, hxr⟩)
      · exact Or.inl hx
      · exact Or.inr ⟨r, h.mem_iff.mpr hr, hxr⟩

/-- Witness for claim C2 at the concrete two-rule permutation. -/
theorem c2_render_determinism_witness :
    (∀ x, x ∈ (applyRules [ruleA, ruleB] emptyEnv).build_inputs ↔
        x ∈ (applyRules [ruleB, ruleA] emptyEnv).build_inputs) ∧
    (∀ x, x ∈ (applyRules [ruleA, ruleB] emptyEnv).runtime_inputs ↔
        x ∈ (applyRules [ruleB, ruleA] emptyEnv).runtime_inputs) ∧
    (∀ e1 e2 : DevEnvironment, e1 = e2 → to_flake e1 = to_flake e2) :=
  c2_render_determinism [ruleA, ruleB] [ruleB, ruleA] emptyEnv
    (List.Perm.swap ruleB ruleA [])

/-- Counterexample for claim C3: at an accumulator whose variable map was
filled in the order B then A, the emitted declarations keep that order
and are not sorted by variable name. -/
theorem c3_counterexample :
    environment_variables_section envC3 = "\"B\" = \"1\";\n\"A\" = \"2\";" ∧
    specEnvListing envC3 = "\"A\" = \"2\";\n\"B\" = \"1\";" ∧
    environment_variables_section envC3 ≠ specEnvListing envC3 := by
  refine ⟨by decide, by decide, by decide⟩

/-- Claim C3 (amended): the descriptor emits one declaration per map
entry in map iteration order (not sorted by name); each entry holds the
final value because map insertion overwrites on key collision, and a
map with distinct keys keeps distinct keys, so each name gets exactly
one declaration. -/
theorem c3_env_vars (env : DevEnvironment) (m : List (String × String))
    (k v1 v2 : String) (h : (m.map Prod.fst).Nodup) :
    environment_variables_section env =
      String.intercalate "\n" (env.environment_variables.map fmtVar) ∧
    List.lookup k (upsertVar (upsertVar m k v1) k v2) = some v2 ∧
    ((upsertVar m k v2).map Prod.fst).Nodup := by
  exact ⟨rfl, lookup_upsertVar _ k v2, nodup_keys_upsertVar m k v2 h⟩

/-- Witness for claim C3 at a concrete map and overwritten key. -/
theorem c3_env_vars_witness :
    environment_variables_section envC3 =
      String.intercalate "\n" (envC3.environment_variables.map fmtVar) ∧
    List.lookup "K" (upsertVar (upsertVar [("X", "0")] "K" "1") "K" "2") = some "2" ∧
    ((upsertVar [("X", "0")] "K" "2").map Prod.fst).Nodup :=
  c3_env_vars envC3 [("X", "0")] "K" "1" "2" (by decide)

/-- Counterexample for claim C4: when the spawn of the build tool fails,
the fetch does not return an error value to the caller; it terminates
the process with exit code 1. -/
theorem c4_counterexample :
    add_deps_from_cargo parse0 reg0 CmdResult.spawnErr emptyEnv =
      (emptyEnv, FetchResult.exit 1) :=
  rfl

/-- Claim C4 (amended): when the build tool cannot be located or
executed, the fetch prints install guidance and exits the process with
code 1 instead of returning an error value, leaving the accumulator
untouched; this outcome is distinct from every returned error, in
particular from the tool-failed error. -/
theorem c4_tool_missing (parse : String → Option CargoMetadata)
    (reg : RustRegistry) (env : DevEnvironment) :
    add_deps_from_cargo parse reg CmdResult.spawnErr env = (env, FetchResult.exit 1) ∧
    ∀ e : RiffError, FetchResult.exit 1 ≠ FetchResult.err e := by
  refine ⟨rfl, fun e he => ?_⟩
  cases he

/-- Claim C5 (confirmed): a non-zero exit returns the tool-failed error
carrying the exit code and the captured stderr text verbatim; a zero
exit with undecodable output returns the not-UTF8 or malformed-output
error, and neither of those is classified as tool-failed. -/
theorem c5_error_classes (parse : String → Option CargoMetadata)
    (reg : RustRegistry) (env : DevEnvironment) (c : Option Int)
    (s out : String) (stdoutB stderrB : Option String)
    (hc : c ≠ some 0) (hp : parse out = none) :
    add_deps_from_cargo parse reg (CmdResult.output c stdoutB (some s)) env =
      (env, FetchResult.err (RiffError.toolFailed c s)) ∧
    add_deps_from_cargo parse reg (CmdResult.output (some 0) none stderrB) env =
      (env, FetchResult.err RiffError.stdoutNotUtf8) ∧
    add_deps_from_cargo parse reg (CmdResult.output (some 0) (some out) stderrB) env =
      (env, FetchResult.err RiffError.malformedOutput) ∧
    (RiffError.toolFailed c s).isToolFailed = true ∧
    RiffError.stdoutNotUtf8.isToolFailed = false ∧
    RiffError.malformedOutput.isToolFailed = false := by
  refine ⟨?_, ?_, ?_, rfl, rfl, rfl⟩
  · simp [add_deps_from_cargo, hc]
  · rfl
  · simp [add_deps_from_cargo, hp]

/-- Witness for claim C5 at a concrete failing exit and unparsable
output. -/
theorem c5_error_classes_witness :
    add_deps_from_cargo parse0 reg0 (CmdResult.output (some 101) none (some "boom")) emptyEnv =
      (emptyEnv, FetchResult.err (RiffError.toolFailed (some 101) "boom")) ∧
    add_deps_from_cargo parse0 reg0 (CmdResult.output (some 0) none none) emptyEnv =
      (emptyEnv, FetchResult.err RiffError.stdoutNotUtf8) ∧
    add_deps_from_cargo parse0 reg0 (CmdResult.output (some 0) (some "junk") none) emptyEnv =
      (emptyEnv, FetchResult.err RiffError.malformedOutput) ∧
    (RiffError.toolFailed (some 101) "boom").isToolFailed = true ∧
    RiffError.stdoutNotUtf8.isToolFailed = false ∧
    RiffError.malformedOutput.isToolFailed = false :=
  c5_error_classes parse0 reg0 emptyEnv (some 101) "boom" "junk" none none
    (by decide) rfl

theorem processPackages_eq_foldl (reg : RustRegistry) :
    ∀ (ps : List Package) (env : DevEnvironment),
      processPackages reg ps env = (ps.map toRecord).foldl (applyRecord reg) env := by
  intro ps
  induction ps with
  | nil => intro env; rfl
  | cons p rest ih =>
    intro env
    rcases hm : p.metadata with _ | mo
    · rcases hd : reg.dependencies p.name with _ | cfg <;>
        simp [processPackages, hm, hd, ih, toRecord, applyRecord, Option.bind]
    · rcases hr : mo.riff with _ | cfg <;>
        rcases hd : reg.dependencies p.name with _ | cfg2 <;>
        simp [processPackages, hm, hr, hd, ih, toRecord, applyRecord, Option.bind]

/-- Claim C6 (confirmed): the package-processing loop of the fetch is
exactly the layering protocol of the spec: the ecosystem default rule is
applied unconditionally before any per-package rule, and for each fetched
package the registry rule is applied first if present and the inline
self-declared override second if present, both when both exist. -/
theorem c6_override_protocol (parse : String → Option CargoMetadata)
    (reg : RustRegistry) (env : DevEnvironment) (ps : List Package)
    (out : String) (meta : CargoMetadata) (stderrB : Option String)
    (hp : parse out = some meta) :
    processPackages reg ps (applyRule reg.default env) =
      resolveSpecApply reg (ps.map toRecord) env ∧
    add_deps_from_cargo parse reg (CmdResult.output (some 0) (some out) stderrB) env =
      (resolveSpecApply reg (meta.packages.map toRecord) env, FetchResult.ok) := by
  constructor
  · rw [resolveSpecApply, processPackages_eq_foldl]
  · have hstep : add_deps_from_cargo parse reg
        (CmdResult.output (some 0) (some out) stderrB) env =
        (processPackages reg meta.packages (applyRule reg.default env),
          FetchResult.ok) := by
      simp [add_deps_from_cargo, hp]
    rw [hstep, resolveSpecApply, processPackages_eq_foldl]

/-- Witness for claim C6 at a concrete successful fetch. -/
theorem c6_override_protocol_witness :
    processPackages reg0 [] (applyRule reg0.default emptyEnv) =
      resolveSpecApply reg0 ([].map toRecord) emptyEnv ∧
    add_deps_from_cargo parseEmpty reg0 (CmdResult.output (some 0) (some "x") none) emptyEnv =
      (resolveSpecApply reg0 (metaEmpty.packages.map toRecord) emptyEnv, FetchResult.ok) :=
  c6_override_protocol parseEmpty reg0 emptyEnv [] "x" metaEmpty none rfl

/-- Counterexample for claim C7: a directory whose root does contain the
marker file can still make detect fail, namely when the build tool runs
and exits non-zero; the ecosystem is recorded but detect returns the
tool-failed error, not success. -/
theorem c7_counterexample :
    detect parse0 reg0 true "/proj"
        (CmdResult.output (some 101) (some "") (some "boom")) emptyEnv =
      ({ emptyEnv with detected_languages := [DetectedLanguage.Rust] },
        FetchResult.err (RiffError.toolFailed (some 101) "boom")) := by
  decide

/-- Claim C7 (amended): with the marker present, detect records the
ecosystem in the detected set (whatever the fetch outcome) and succeeds
whenever the metadata fetch pipeline succeeds; without a marker, detect
fails with the unsupported-project error, whose message names the path. -/
theorem c7_detect (parse : String → Option CargoMetadata) (reg : RustRegistry)
    (env : DevEnvironment) (dir out : String) (meta : CargoMetadata)
    (stderrB : Option String) (cmd : CmdResult)
    (hp : parse out = some meta) :
    (detect parse reg true dir (CmdResult.output (some 0) (some out) stderrB) env).2 =
      FetchResult.ok ∧
    DetectedLanguage.Rust ∈ (detect parse reg true dir cmd env).1.detected_languages ∧
    detect parse reg false dir cmd env =
      (env, FetchResult.err (RiffError.unsupportedProject dir)) ∧
    (RiffError.unsupportedProject dir).message =
      "\x27" ++ dir ++ "\x27 does not contain a project recognized by Riff." := by
  refine ⟨?_, ?_, rfl, rfl⟩
  · simp [detect, add_deps_from_cargo, hp]
  · show DetectedLanguage.Rust ∈
      (add_deps_from_cargo parse reg cmd
        { env with detected_languages :=
            insertElem env.detected_languages DetectedLanguage.Rust }).1.detected_languages
    rw [add_deps_detected_languages]
    exact (mem_insertElem _ _ _).mpr (Or.inr rfl)

/-- Witness for claim C7 at a concrete marker-bearing project. -/
theorem c7_detect_witness :
    (detect parseEmpty reg0 true "/proj" (CmdResult.output (some 0) (some "x") none)
        emptyEnv).2 = FetchResult.ok ∧
    DetectedLanguage.Rust ∈
      (detect parseEmpty reg0 true "/proj" CmdResult.spawnErr emptyEnv).1.detected_languages ∧
    detect parseEmpty reg0 false "/proj" CmdResult.spawnErr emptyEnv =
      (emptyEnv, FetchResult.err (RiffError.unsupportedProject "/proj")) ∧
    (RiffError.unsupportedProject "/proj").message =
      "\x27/proj\x27 does not contain a project recognized by Riff." :=
  c7_detect parseEmpty reg0 emptyEnv "/proj" "x" metaEmpty none CmdResult.spawnErr rfl

/-- Claim C8 (confirmed): the library-search-path declaration is present
in the rendered descriptor exactly when the runtime-input set is
non-empty; when present its value maps every runtime-input name, each
appearing exactly once, through the fixed path rule joined by the fixed
separator; when the set is empty the slot is the empty string. -/
theorem c8_ld_library_path (env : DevEnvironment) (h : env.runtime_inputs.Nodup) :
    (env.runtime_inputs = [] → ld_library_path_section env = "") ∧
    (env.runtime_inputs ≠ [] →
      ld_library_path_section env =
        "\"LD_LIBRARY_PATH\" = \"" ++
          String.intercalate ":" (env.runtime_inputs.map pathRule) ++ "\";" ∧
      ld_library_path_section env ≠ "" ∧
      ∀ v ∈ env.runtime_inputs, env.runtime_inputs.count v = 1) := by
  constructor
  · intro he
    simp [ld_library_path_section, he]
  · intro he
    refine ⟨by simp [ld_library_path_section, he], ?_, ?_⟩
    · rw [ld_library_path_section, if_neg he]
      intro heq
      have hlen := congrArg String.length heq
      rw [String.length_append, String.length_append] at hlen
      have h21 : ("\"LD_LIBRARY_PATH\" = \"" : String).length = 21 := by decide
      rw [h21] at hlen
      simp at hlen
    · intro v hv
      exact List.count_eq_one_of_mem h hv

/-- Witness for claim C8 at a concrete accumulator with two runtime
inputs. -/
theorem c8_ld_library_path_witness :
    (envC8.runtime_inputs = [] → ld_library_path_section envC8 = "") ∧
    (envC8.runtime_inputs ≠ [] →
      ld_library_path_section envC8 =
        "\"LD_LIBRARY_PATH\" = \"" ++
          String.intercalate ":" (envC8.runtime_inputs.map pathRule) ++ "\";" ∧
      ld_library_path_section envC8 ≠ "" ∧
      ∀ v ∈ envC8.runtime_inputs, envC8.runtime_inputs.count v = 1) :=
  c8_ld_library_path envC8 (by decide)

/-- Claim C9 (confirmed): the telemetry payload built from an accumulator
depends only on its detected-languages set; accumulators that agree on
that set but differ in build inputs, runtime inputs or environment
variables yield identical telemetry. -/
theorem c9_telemetry_only_languages (t : Telemetry) (e1 e2 : DevEnvironment)
    (h : e1.detected_languages = e2.detected_languages) :
    telemetryOf t e1 = telemetryOf t e2 := by
  simp [telemetryOf, Telemetry.with_detected_languages, h]

/-- Witness for claim C9 at two accumulators that differ in every field
except the detected languages. -/
theorem c9_telemetry_only_languages_witness :
    telemetryOf tel0 envT1 = telemetryOf tel0 envT2 :=
  c9_telemetry_only_languages tel0 envT1 envT2 rfl

/-- Claim C10 (confirmed): when a distinct id is present, redaction
replaces every occurrence of its canonical string form, and the result
contains no occurrence of that string: no 36-character window of the
output can overlap an inserted redaction marker, because every non-empty
prefix of the marker contains a character the UUID alphabet lacks and so
does every non-empty suffix, and any occurrence avoiding the markers
would have been found and replaced by the left-to-right scan. -/
theorem c10_redact_removes_distinct_id (tel : Telemetry) (u : Nat)
    (val : List Char) (h : tel.distinct_id = some u) :
    ¬ uuidToString u <:+: tel.redact_header_data val := by
  have hlg := not_mem_uuidToString '<' (by decide) (by decide) u
  have hgg := not_mem_uuidToString '>' (by decide) (by decide) u
  have hlen := uuidToString_length u
  have hred : tel.redact_header_data val =
      listReplace (uuidToString u) redactReplacement val := by
    rw [Telemetry.redact_header_data, h]
  rw [hred]
  rcases hu : uuidToString u with _ | ⟨a, s0⟩
  · rw [hu] at hlen
    simp at hlen
  · rw [hu] at hlg hgg hlen
    simp only [listReplace]
    apply pattern_not_in_replaceFrom a s0 ?_ hlg hgg val.length val le_rfl
    rw [List.length_cons] at hlen
    omega

/-- Witness for claim C10: the redaction of a payload that is exactly the
distinct-id string contains no occurrence of that string. -/
theorem c10_redact_removes_distinct_id_witness :
    ¬ uuidToString 0 <:+: tel0.redact_header_data (uuidToString 0) :=
  c10_redact_removes_distinct_id tel0 0 (uuidToString 0) rfl
